import Mathlib

/-!
Verification of the Lizard web framework (route matching, middleware
dispatch, response construction) against its natural-language specification.
The definitions below are a shallow embedding of the TypeScript sources:
`utils.ts` (pathToRegex / parseUrl / matchRoute / parseQuery), `response.ts`
(ResponseBuilder) and `lizard.ts` (createContext: config, addRoute,
applyMiddlewares, fetch).
-/

namespace Lizard

/-! ## JavaScript runtime helpers

Small models of the JS builtins the sources lean on: `decodeURIComponent`,
`Map.set` / `Headers.set`, `Object.fromEntries`, `String.prototype.split`.
These builtins are not part of the repository; they are modelled after
their standard (ECMAScript / WHATWG) behavior, restricted to the ASCII
range that the specification's examples exercise. -/

/-- Value of one hex digit, or `none`. -/
def hexDigitVal (c : Char) : Option Nat :=
  if '0' ≤ c ∧ c ≤ '9' then some (c.toNat - '0'.toNat)
  else if 'a' ≤ c ∧ c ≤ 'f' then some (c.toNat - 'a'.toNat + 10)
  else if 'A' ≤ c ∧ c ≤ 'F' then some (c.toNat - 'A'.toNat + 10)
  else none

/-- Percent-decoding over a character list: `%XY` with two hex digits becomes
the character with code `16*X + Y`; anything else is copied. This models
`decodeURIComponent` at the byte/ASCII level (multi-byte UTF-8 sequences and
the `URIError` cases are outside the claims' inputs). -/
def percentDecodeChars : List Char → List Char
  | [] => []
  | '%' :: a :: b :: rest =>
    match hexDigitVal a, hexDigitVal b with
    | some x, some y => Char.ofNat (16 * x + y) :: percentDecodeChars rest
    | _, _ => '%' :: percentDecodeChars (a :: b :: rest)
  | c :: rest => c :: percentDecodeChars rest

/-- Model of the JS `decodeURIComponent` builtin (ASCII level). -/
def decodeURIComponentM (s : String) : String :=
  String.mk (percentDecodeChars s.data)

/-- Splitting on a single-character separator, accumulator form. -/
def splitCharAux (c : Char) : List Char → List Char → List (List Char)
  | [], acc => [acc.reverse]
  | x :: xs, acc =>
    if x = c then acc.reverse :: splitCharAux c xs []
    else splitCharAux c xs (x :: acc)

/-- Model of `String.prototype.split` with a one-character separator:
`"".split(c)` is `[""]`, separators at the ends produce empty pieces. -/
def jsSplit (s : String) (c : Char) : List String :=
  (splitCharAux c s.data []).map String.mk

/-- Model of `String.prototype.toLowerCase` (ASCII). -/
def jsToLower (s : String) : String := String.mk (s.data.map Char.toLower)

/-- Model of `String.prototype.toUpperCase` (ASCII). -/
def jsToUpper (s : String) : String := String.mk (s.data.map Char.toUpper)

/-- Model of `Map.prototype.set` / ordered-object insertion: replace the
value in place when the key is present (keeping its position), otherwise
append the pair at the end. -/
def listSet {α : Type} : List (String × α) → String → α → List (String × α)
  | [], k, v => [(k, v)]
  | (k', v') :: rest, k, v =>
    if k' = k then (k, v) :: rest else (k', v') :: listSet rest k v

/-- Lookup by key in an association list (model of `Map.prototype.get`):
the value of the first pair whose key equals `k`. -/
def listGet {α : Type} : List (String × α) → String → Option α
  | [], _ => none
  | (k', v') :: rest, k => if k' = k then some v' else listGet rest k

/-- Model of `Object.fromEntries`: later entries for the same key overwrite
the earlier value, the key keeping its first-insertion position. -/
def objFromEntries {α : Type} (l : List (String × α)) : List (String × α) :=
  l.foldl (fun acc p => listSet acc p.1 p.2) []

/-- Model of `Headers.prototype.set`: header names are case-insensitive and
stored lowercased; `set` overwrites. -/
def headersSet (h : List (String × String)) (k v : String) : List (String × String) :=
  listSet h (jsToLower k) v

/-- Model of `Headers.prototype.get` (case-insensitive). -/
def headersGet (h : List (String × String)) (k : String) : Option String :=
  listGet h (jsToLower k)

/-- Splits a character list at the first occurrence of `c`: returns the
prefix before it and, when `c` occurs, the suffix after it. -/
def breakAt (c : Char) : List Char → List Char × Option (List Char)
  | [] => ([], none)
  | x :: xs =>
    if x = c then ([], some xs)
    else
      let (l, r) := breakAt c xs
      (x :: l, r)

/-! ## JSON values and `JSON.stringify`

`ResponseBuilder.json` serializes its argument with `JSON.stringify`; a
small JSON value type with compact serialization models this (string
escaping restricted to quote and backslash, enough for the claims). -/

inductive Json : Type where
  | jnull : Json
  | jbool : Bool → Json
  | jnum : Int → Json
  | jstr : String → Json
  | jarr : List Json → Json
  | jobj : List (String × Json) → Json
deriving Repr

/-- Escapes quote and backslash inside a JSON string literal. -/
def jsonEscape (s : String) : String :=
  String.mk (s.data.flatMap fun c =>
    if c = '"' then ['\\', '"']
    else if c = '\\' then ['\\', '\\']
    else [c])

mutual

/-- Model of `JSON.stringify` (compact form, insertion-ordered object keys). -/
def Json.stringify : Json → String
  | .jnull => "null"
  | .jbool true => "true"
  | .jbool false => "false"
  | .jnum n => toString n
  | .jstr s => "\"" ++ jsonEscape s ++ "\""
  | .jarr xs => "[" ++ stringifyList xs ++ "]"
  | .jobj fs => "\x7b" ++ stringifyFields fs ++ "\x7d"

def stringifyList : List Json → String
  | [] => ""
  | [x] => Json.stringify x
  | x :: y :: rest => Json.stringify x ++ "," ++ stringifyList (y :: rest)

def stringifyFields : List (String × Json) → String
  | [] => ""
  | [(k, v)] => "\"" ++ jsonEscape k ++ "\":" ++ Json.stringify v
  | (k, v) :: f :: rest =>
      "\"" ++ jsonEscape k ++ "\":" ++ Json.stringify v ++ "," ++ stringifyFields (f :: rest)

end

/-! ## ResponseBuilder (`response.ts`)

The builder holds `statusCode` (default 200), `statusText` (default "OK")
and a `Headers` map. Mutators throw on invalid input; embedded here as
`Except` with the source's error messages. -/

structure Builder where
  statusCode : Int
  statusText : String
  headers : List (String × String)
deriving Repr, DecidableEq

/-- The `ResponseBuilder` constructor: status 200, text "OK", empty headers. -/
def Builder.init : Builder := ⟨200, "OK", []⟩

/-- `setStatusText(text)`: throws when `text` is falsy (the empty string). -/
def Builder.setStatusText (b : Builder) (text : String) : Except String Builder :=
  if text = "" then .error "Status text cannot be empty"
  else .ok { b with statusText := text }

/-- `status(code)`: throws when `code < 100 || code > 599`. -/
def Builder.status (b : Builder) (code : Int) : Except String Builder :=
  if code < 100 ∨ code > 599 then .error "Invalid status code"
  else .ok { b with statusCode := code }

/-- `header(key, value)`: throws when either is falsy (empty). -/
def Builder.header (b : Builder) (k v : String) : Except String Builder :=
  if k = "" ∨ v = "" then .error "Header key and value cannot be empty"
  else .ok { b with headers := headersSet b.headers k v }

/-- An HTTP response value, as produced by the WHATWG `Response`
constructor: `new Response(body, init)` with no `statusText` in `init`
leaves `statusText` as the empty string. -/
structure Response where
  status : Int
  statusText : String
  headers : List (String × String)
  body : String
deriving Repr, DecidableEq

/-- `new Response(body, \x7bstatus, headers\x7d)` as invoked by the builder's
finalizers: `statusText` is not passed and defaults to `""`; the headers are
copied into the response (a snapshot, independent of later mutation). -/
def mkResponse (body : String) (status : Int) (headers : List (String × String)) : Response :=
  ⟨status, "", headers, body⟩

/-- `json(data)`: sets `Content-Type: application/json` on the builder's own
headers (a mutation of `this.headers` that persists on the builder), then
returns the response. Result is the response paired with the builder's
post-call state. -/
def Builder.json (b : Builder) (data : Json) : Response × Builder :=
  let h := headersSet b.headers "Content-Type" "application/json"
  (mkResponse (Json.stringify data) b.statusCode h, { b with headers := h })

/-- `send(data)`: builds the response from the current state without
touching the headers. -/
def Builder.send (b : Builder) (data : String) : Response :=
  mkResponse data b.statusCode b.headers

/-- `html(data)`: sets `Content-Type: text/html` on the builder's headers,
then returns the response. -/
def Builder.html (b : Builder) (data : String) : Response × Builder :=
  let h := headersSet b.headers "Content-Type" "text/html"
  (mkResponse data b.statusCode h, { b with headers := h })

/-- `text(data)`: sets `Content-Type: text/plain` on the builder's headers,
then returns the response. -/
def Builder.text (b : Builder) (data : String) : Response × Builder :=
  let h := headersSet b.headers "Content-Type" "text/plain"
  (mkResponse data b.statusCode h, { b with headers := h })

/-! ## PathMatcher

`utils.ts` delegates pattern compilation to the external `path-to-regexp`
package (`pathToRegex = (path) => pathToReg.pathToRegexp(path)`), whose code
is not part of this repository. The compiled matcher is therefore modelled
from the specification (§3, §4.1). -/

/-- A compiled pattern segment: a literal, or a named parameter. -/
inductive Seg : Type where
  | lit : String → Seg
  | param : String → Seg
deriving Repr, DecidableEq

/-- Splits a pattern or path into segments on `/`, discarding the leading
empty segment produced by a leading slash (spec §4.1). -/
def splitSegs (s : String) : List String :=
  match jsSplit s '/' with
  | "" :: rest => rest
  | parts => parts

/-- Modelled from the spec: `compile(pattern)` for the missing
`path-to-regexp` library (§4.1). Fails with `InvalidPatternError` when the
pattern is empty or contains a parameter with an empty name (a bare `:`);
otherwise each segment starting with `:` becomes a named parameter and any
other segment a literal. -/
def compileSegs : List String → Except String (List Seg)
  | [] => .ok []
  | part :: rest =>
    if part.data.head? = some ':' then
      let n := String.mk part.data.tail
      if n = "" then .error "InvalidPatternError: empty parameter name"
      else (compileSegs rest).map (fun segs => Seg.param n :: segs)
    else (compileSegs rest).map (fun segs => Seg.lit part :: segs)

def compilePattern (pattern : String) : Except String (List Seg) :=
  if pattern = "" then .error "InvalidPatternError: empty pattern"
  else compileSegs (splitSegs pattern)

/-- The declared parameter names of a compiled pattern, in order
(`pathRegex.keys` of the compiled matcher). -/
def segKeys (segs : List Seg) : List String :=
  segs.filterMap fun s =>
    match s with
    | .param n => some n
    | .lit _ => none

/-- Modelled from the spec: executing the compiled matcher against a path's
segments (§4.1, §3). Segment counts must be equal; a literal segment must
equal the path segment exactly (case-sensitive); a named segment matches
exactly one non-empty path segment and captures it URL-decoded. Returns the
captured values in declared order, or `none` on the first mismatch. -/
def execSegs : List Seg → List String → Option (List String)
  | [], [] => some []
  | .lit s :: ss, p :: ps => if s = p then execSegs ss ps else none
  | .param _ :: ss, p :: ps =>
      if p = "" then none
      else (execSegs ss ps).map (fun caps => decodeURIComponentM p :: caps)
  | _, _ => none

/-- `CompiledPattern.match(path)`: the captured name→value mapping, pairing
the declared parameter names with the captures. -/
def matchPattern (segs : List Seg) (path : String) : Option (List (String × String)) :=
  (execSegs segs (splitSegs path)).map (fun caps => (segKeys segs).zip caps)

/-- Whether one pattern segment accepts one path segment. -/
def segOk : Seg × String → Bool
  | (.lit s, p) => s == p
  | (.param _, p) => p != ""

/-- The decoded captures collected from the matched segment pairs. -/
def capsOf (l : List (Seg × String)) : List String :=
  l.filterMap fun x =>
    match x with
    | (.param _, p) => some (decodeURIComponentM p)
    | (.lit _, _) => none

/-! ## URL parsing (`parseUrl` of `utils.ts`)

`parseUrl` prefixes `http://` when no scheme is present and hands the string
to the WHATWG `URL` constructor; `matchRoute` then reads `url.pathname` and
`url.search.slice(1)`. The `URL` builtin is modelled here for well-formed
http/https URLs: the pathname runs from the first `/` after the host (or is
`/` when absent) to the first `?`, and the query is everything after it. -/

/-- Drops the host part: everything before the first `/` or `?`. -/
def restAfterHost : List Char → List Char
  | [] => []
  | c :: cs => if c = '/' ∨ c = '?' then c :: cs else restAfterHost cs

/-- The scheme-free remainder of the URL (`parseUrl` adds `http://` when
missing, so parsing is insensitive to its presence). -/
def stripScheme (url : String) : String :=
  if List.isPrefixOf "http://".data url.data then String.mk (url.data.drop 7)
  else if List.isPrefixOf "https://".data url.data then String.mk (url.data.drop 8)
  else url

/-- `urlObj.pathname` and `urlObj.search.slice(1)` of the parsed URL. -/
def pathAndQuery (url : String) : String × String :=
  let rest := restAfterHost (stripScheme url).data
  let (p, q) := breakAt '?' rest
  (if p.isEmpty then "/" else String.mk p, String.mk ((q.getD [])))

/-! ## Query parsing -/

/-- application/x-www-form-urlencoded decoding used by `URLSearchParams`:
`+` becomes a space, then percent-decoding. -/
def formDecode (s : String) : String :=
  decodeURIComponentM (String.mk (s.data.map fun c => if c = '+' then ' ' else c))

/-- Model of `Object.fromEntries(new URLSearchParams(queryString))` as used
by `matchRoute`: split on `&` ignoring empty pairs, split each pair at the
first `=` (missing `=` gives the empty value), form-decode key and value,
later duplicates overwriting. -/
def urlSearchParamsParse (s : String) : List (String × String) :=
  objFromEntries (((jsSplit s '&').filter (fun p => p ≠ "")).map fun pair =>
    let (k, v) := breakAt '=' pair.data
    (formDecode (String.mk k), formDecode (String.mk ((v.getD [])))))

/-- `parseQuery(queryString)` from `utils.ts`: on a non-empty string, split
on `&`, split each pair on every `=` (`String.prototype.split`), decode each
piece with `decodeURIComponent`, and build the object from the first two
pieces of each pair via `Object.fromEntries` — a pair with no `=` yields the
JS value `undefined` (`none` here). -/
def parseQuery (queryString : String) : List (String × Option String) :=
  if queryString = "" then []
  else
    objFromEntries ((jsSplit queryString '&').map fun pair =>
      let parts := (jsSplit pair '=').map decodeURIComponentM
      (parts.headD "", parts.get? 1))

/-! ## Request events, middleware, routes (`types.ts`, `lizard.ts`)

Handlers and middleware are effectful JS functions over the request-scoped
mutable state they can reach through the event: the call trace (for
observing invocation order), the context's `locals` map (the event holds a
reference to it) and the event's `ResponseBuilder`. They are embedded as
state-passing functions returning `Except` — a thrown error carries the
state as mutated so far, as JS exceptions do not roll back mutations.
`locals` values are modelled as strings (the source type is `unknown`; the
claims concern only sharing, not the value type). -/

abbrev LMap := List (String × String)

structure ReqState where
  trace : List String
  locals : LMap
  builder : Builder

abbrev Eff (α : Type) := ReqState → ReqState × Except String α

structure Event where
  url : String
  method : String
  params : List (String × String)
  query : List (String × String)

abbrev Handler := Event → Eff Response

abbrev Middleware := Event → (Unit → Eff Response) → Eff Response

structure Route where
  method : String
  path : String
  pathRegex : List Seg
  callback : Handler
  middlewares : List Middleware

structure RouteMatch where
  params : List (String × String)
  handler : Handler
  query : List (String × String)
  middlewares : List Middleware

/-- `matchRoute`'s scan over the route list (`utils.ts`): in registration
order, a route is considered only when its method equals the request method;
the first one whose compiled pattern matches the path is returned with its
params (built by pairing `pathRegex.keys` with the captures), the parsed
query (`Object.fromEntries(new URLSearchParams(queryString))` when the query
string is non-empty, else empty) and its middlewares. -/
def matchRouteGo (method path queryString : String) : List Route → Option RouteMatch
  | [] => none
  | r :: rest =>
    if r.method = method then
      match execSegs r.pathRegex (splitSegs path) with
      | some caps =>
        some ⟨(segKeys r.pathRegex).zip caps, r.callback,
              if queryString ≠ "" then urlSearchParamsParse queryString else [],
              r.middlewares⟩
      | none => matchRouteGo method path queryString rest
    else matchRouteGo method path queryString rest

/-- `matchRoute(method, url, routes)` from `utils.ts`. -/
def matchRoute (method url : String) (routes : List Route) : Option RouteMatch :=
  let pq := pathAndQuery url
  matchRouteGo method pq.1 pq.2 routes

/-- `addRoute` from `lizard.ts`: compiles the pattern (a compilation error
propagates to the caller uncaught) and appends the route. -/
def addRoute (routes : List Route) (method path : String) (callback : Handler)
    (middlewares : List Middleware) : Except String (List Route) :=
  (compilePattern path).map fun pr =>
    routes ++ [⟨method, path, pr, callback, middlewares⟩]

/-- `applyMiddlewares(middlewares, index)` from `fetch` in `lizard.ts`:
while `index < middlewares.length`, invoke the middleware at `index` with
the event and a continuation dispatching `index + 1`; past the end, invoke
the route handler. -/
def applyMiddlewares (mws : List Middleware) (handler : Handler) (event : Event)
    (index : Nat) : Eff Response :=
  if h : index < mws.length then
    (mws.get ⟨index, h⟩) event (fun _ => applyMiddlewares mws handler event (index + 1))
  else handler event
termination_by mws.length - index
decreasing_by omega

/-- The application context's state (`createContext` in `lizard.ts`): the
route table, the global middleware list, and the context-level `locals` and
`configs` maps — `locals` is created once per context, not per request. -/
structure App where
  routes : List Route
  globalMiddlewares : List Middleware
  locals : LMap
  configs : LMap

structure Request where
  method : String
  url : String

/-- `fetch(req)` from `lizard.ts`: match the request against the routes; on
a match, build the event (params, query, the context's shared `locals`, a
fresh `ResponseBuilder`) and run `[...globalMiddlewares, ...route.middlewares]`
from index 0 around the handler, catching any error and answering
`event.response.status(500).send('Internal Server Error')` on the builder as
the pipeline left it (`status(500)` cannot throw since 500 ∈ [100,599]); on
no match, answer `response.status(404).send('Not Found')` on the fresh
builder without invoking any middleware or handler. Returns the response
together with the final request state (trace, locals, builder). -/
def fetch (app : App) (req : Request) : Response × ReqState :=
  match matchRoute req.method req.url app.routes with
  | some rm =>
    let event : Event := ⟨req.url, req.method, rm.params, rm.query⟩
    let s0 : ReqState := ⟨[], app.locals, Builder.init⟩
    let out := applyMiddlewares (app.globalMiddlewares ++ rm.middlewares) rm.handler event 0 s0
    match out.2 with
    | .ok r => (r, out.1)
    | .error _ =>
      let b := { out.1.builder with statusCode := 500 }
      (Builder.send b "Internal Server Error", { out.1 with builder := b })
  | none =>
    let b : Builder := { Builder.init with statusCode := 404 }
    (Builder.send b "Not Found", ⟨[], app.locals, b⟩)

/-- Runs two requests in sequence against the same application context. The
context's `locals` map is created once in `createContext` and every event
references it, so the second request starts from the locals state the first
one left behind. -/
def fetchTwice (app : App) (req1 req2 : Request) : Response × Response :=
  let out1 := fetch app req1
  let out2 := fetch { app with locals := out1.2.locals } req2
  (out1.1, out2.1)

/-- `config(newConfigs)` from `lizard.ts`: iterate the entries in
enumeration order; on the first key that differs from its uppercased form,
stop with the error naming that key, keeping the keys already inserted; on
valid keys, `configs.set(key, value)` and continue. Returns the resulting
configs map together with the error, if any. -/
def configMerge (configs : LMap) : List (String × String) → LMap × Option String
  | [] => (configs, none)
  | (k, v) :: rest =>
    if jsToUpper k ≠ k then
      (configs, some ("Config key \"" ++ k ++ "\" must be uppercase."))
    else configMerge (listSet configs k v) rest

/-! ## Builder operation sequences (for the builder invariant) -/

/-- One mutating builder operation. -/
inductive BOp : Type where
  | setStatus : Int → BOp
  | setText : String → BOp
  | setHeader : String → String → BOp

/-- Applies one mutator to the builder. -/
def applyOp (b : Builder) : BOp → Except String Builder
  | .setStatus c => b.status c
  | .setText t => b.setStatusText t
  | .setHeader k v => b.header k v

/-- Applies a sequence of mutators, stopping at the first failure. -/
def runOps : Builder → List BOp → Except String Builder
  | b, [] => .ok b
  | b, op :: rest =>
    match applyOp b op with
    | .ok b' => runOps b' rest
    | .error e => .error e

/-- Structural twin of `applyMiddlewares`, dispatching the remaining suffix
of the chain; used to evaluate the index-based dispatcher on concrete
inputs (they agree — see `applyMiddlewares_eq_dispatch`). -/
def dispatch (handler : Handler) (event : Event) : List Middleware → Eff Response
  | [] => handler event
  | m :: rest => m event (fun _ => dispatch handler event rest)

/-! ## Concrete fixtures

Handlers and middleware used in the concrete scenarios: they record their
invocation in the trace, short-circuit, mutate the event's response
builder, or read and write the shared locals store. -/

/-- A handler that records `tag` in the trace and answers 200 `tag`. -/
def hTag (tag : String) : Handler := fun _ => fun s =>
  ({ s with trace := s.trace ++ [tag] }, .ok (mkResponse tag 200 []))

/-- A middleware that logs before calling `next` and after it returns
(when it returned normally), passing the response through. -/
def logMw (name : String) : Middleware := fun _ next => fun s =>
  let s1 := { s with trace := s.trace ++ [name ++ "-before"] }
  match next () s1 with
  | (s2, .ok r) => ({ s2 with trace := s2.trace ++ [name ++ "-after"] }, .ok r)
  | (s2, .error e) => (s2, .error e)

/-- A middleware that never calls `next`: it logs `name` and answers its
own response directly (short-circuit). -/
def scMw (name : String) : Middleware := fun _ _ => fun s =>
  ({ s with trace := s.trace ++ [name] }, .ok (mkResponse name 200 []))

/-- A middleware that sets the header `X-Leak: 1` on the event's response
builder and then throws. -/
def leakMw : Middleware := fun _ _ => fun s =>
  match s.builder.header "X-Leak" "1" with
  | .ok b => ({ s with builder := b }, .error "boom")
  | .error e => (s, .error e)

/-- A handler that writes `k := v` into the locals store. -/
def hWrite : Handler := fun _ => fun s =>
  ({ s with locals := listSet s.locals "k" "v" }, .ok (mkResponse "done" 200 []))

/-- A handler that answers the value of `k` in the locals store (or
`missing` when absent). -/
def hRead : Handler := fun _ => fun s =>
  (s, .ok (mkResponse ((listGet s.locals "k").getD "missing") 200 []))

/-- App with route `GET /t` (route middleware `B`, handler `H`) and global
middleware `A`: the chain `[A, B]` wraps `H`. -/
def appChain : App :=
  ⟨[⟨"GET", "/t", [Seg.lit "t"], hTag "H", [logMw "B"]⟩], [logMw "A"], [], []⟩

/-- App whose chain is `[A, B-sc]` with `B-sc` short-circuiting before `H`. -/
def appShort : App :=
  ⟨[⟨"GET", "/t", [Seg.lit "t"], hTag "H", [scMw "B-sc"]⟩], [logMw "A"], [], []⟩

/-- App with route `GET /x` whose global middleware mutates the response
builder and then throws. -/
def appLeak : App :=
  ⟨[⟨"GET", "/x", [Seg.lit "x"], hTag "H", []⟩], [leakMw], [], []⟩

/-- App with a locals-writing route `GET /w` and a locals-reading route
`GET /r`. -/
def appLocals : App :=
  ⟨[⟨"GET", "/w", [Seg.lit "w"], hWrite, []⟩, ⟨"GET", "/r", [Seg.lit "r"], hRead, []⟩],
   [], [], []⟩

/-! ## Helper lemmas -/

theorem listGet_listSet_self {α : Type} (m : List (String × α)) (k : String) (v : α) :
    listGet (listSet m k v) k = some v := by
  induction m with
  | nil => simp [listSet, listGet]
  | cons p rest ih =>
    obtain ⟨k', v'⟩ := p
    by_cases h : k' = k
    · simp [listSet, h, listGet]
    · simpa [listSet, h, listGet] using ih

theorem listGet_listSet_ne {α : Type} (m : List (String × α)) (k k' : String) (v : α)
    (h : k' ≠ k) : listGet (listSet m k v) k' = listGet m k' := by
  induction m with
  | nil => simp [listSet, listGet, Ne.symm h]
  | cons p rest ih =>
    obtain ⟨k₀, v₀⟩ := p
    by_cases hp : k₀ = k
    · subst hp
      simp [listSet, listGet, Ne.symm h]
    · simp only [listSet, if_neg hp, listGet]
      split
      · rfl
      · exact ih

/-- Unfolding equation of the middleware dispatcher. -/
theorem applyMiddlewares_unfold (mws : List Middleware) (handler : Handler)
    (event : Event) (index : Nat) :
    applyMiddlewares mws handler event index =
      if h : index < mws.length then
        (mws.get ⟨index, h⟩) event (fun _ => applyMiddlewares mws handler event (index + 1))
      else handler event := by
  rw [applyMiddlewares]

/-- The matched branch of `fetch`, as an equation. -/
theorem fetch_matched (app : App) (req : Request) (rm : RouteMatch)
    (h : matchRoute req.method req.url app.routes = some rm) :
    fetch app req =
      (let event : Event := ⟨req.url, req.method, rm.params, rm.query⟩
       let out := applyMiddlewares (app.globalMiddlewares ++ rm.middlewares) rm.handler event 0
         ⟨[], app.locals, Builder.init⟩
       match out.2 with
       | .ok r => (r, out.1)
       | .error _ =>
         let b := { out.1.builder with statusCode := 500 }
         (Builder.send b "Internal Server Error", { out.1 with builder := b })) := by
  unfold fetch
  rw [h]

/-- The unmatched branch of `fetch`, as an equation. -/
theorem fetch_none (app : App) (req : Request)
    (h : matchRoute req.method req.url app.routes = none) :
    fetch app req =
      (Builder.send { Builder.init with statusCode := 404 } "Not Found",
       ⟨[], app.locals, { Builder.init with statusCode := 404 }⟩) := by
  unfold fetch
  rw [h]

/-- `matchRouteGo` is a first-match scan in list order. -/
theorem matchRouteGo_eq_findSome (method path qs : String) (routes : List Route) :
    matchRouteGo method path qs routes =
      routes.findSome? (fun r =>
        if r.method = method then
          (execSegs r.pathRegex (splitSegs path)).map (fun caps =>
            (⟨(segKeys r.pathRegex).zip caps, r.callback,
              if qs ≠ "" then urlSearchParamsParse qs else [],
              r.middlewares⟩ : RouteMatch))
        else none) := by
  induction routes with
  | nil => rfl
  | cons r rest ih =>
    rw [matchRouteGo, List.findSome?]
    by_cases h : r.method = method
    · simp only [h, if_true]
      cases hx : execSegs r.pathRegex (splitSegs path) with
      | none => simpa [hx] using ih
      | some caps => simp [hx]
    · simpa [h] using ih


@[simp] theorem capsOf_nil : capsOf [] = [] := rfl

@[simp] theorem capsOf_cons_lit (s p : String) (l : List (Seg × String)) :
    capsOf ((Seg.lit s, p) :: l) = capsOf l := rfl

@[simp] theorem capsOf_cons_param (n p : String) (l : List (Seg × String)) :
    capsOf ((Seg.param n, p) :: l) = decodeURIComponentM p :: capsOf l := rfl

@[simp] theorem segOk_lit (s p : String) : segOk (Seg.lit s, p) = (s == p) := rfl

@[simp] theorem segOk_param (n p : String) : segOk (Seg.param n, p) = (p != "") := rfl

@[simp] theorem segKeys_nil : segKeys [] = [] := rfl

@[simp] theorem segKeys_cons_lit (s : String) (ss : List Seg) :
    segKeys (Seg.lit s :: ss) = segKeys ss := rfl

@[simp] theorem segKeys_cons_param (n : String) (ss : List Seg) :
    segKeys (Seg.param n :: ss) = n :: segKeys ss := rfl

/-- Characterization of the matcher: it succeeds exactly on equal segment
counts with every pair accepted, and then returns the decoded captures. -/
theorem execSegs_eq_some_iff (segs : List Seg) (psegs : List String) (caps : List String) :
    execSegs segs psegs = some caps ↔
      segs.length = psegs.length ∧ (segs.zip psegs).all segOk = true ∧
        caps = capsOf (segs.zip psegs) := by
  induction segs generalizing psegs caps with
  | nil =>
    cases psegs with
    | nil => simp [execSegs, eq_comm]
    | cons p ps => simp [execSegs]
  | cons s ss ih =>
    cases psegs with
    | nil => cases s <;> simp [execSegs]
    | cons p ps =>
      cases s with
      | lit l =>
        by_cases h : l = p
        · rw [execSegs, if_pos h]
          rw [ih]
          simp [h]
        · rw [execSegs, if_neg h]
          simp [h]
      | param n =>
        by_cases h : p = ""
        · rw [execSegs, if_pos h]
          simp [h]
        · rw [execSegs, if_neg h]
          simp only [List.zip_cons_cons, List.all_cons, segOk_param, List.length_cons,
            capsOf_cons_param]
          constructor
          · intro hm
            cases hc : execSegs ss ps with
            | none => rw [hc] at hm; simp at hm
            | some cs =>
              rw [hc] at hm
              simp only [Option.map_some', Option.some.injEq] at hm
              obtain ⟨h1, h2, h3⟩ := (ih ps cs).mp hc
              refine ⟨by simp [h1], by simp [h, h2], ?_⟩
              rw [← hm, h3]
          · rintro ⟨h1, h2, h3⟩
            simp only [Bool.and_eq_true] at h2
            have hss := (ih ps (capsOf (ss.zip ps))).mpr ⟨by omega, h2.2, rfl⟩
            rw [hss]
            simp [h3]

/-- A successful match captures one value per declared parameter name. -/
theorem execSegs_length (segs : List Seg) (psegs caps : List String)
    (h : execSegs segs psegs = some caps) : caps.length = (segKeys segs).length := by
  induction segs generalizing psegs caps with
  | nil =>
    cases psegs with
    | nil => simp [execSegs] at h; simp [← h]
    | cons p ps => simp [execSegs] at h
  | cons s ss ih =>
    cases psegs with
    | nil => cases s <;> simp [execSegs] at h
    | cons p ps =>
      cases s with
      | lit l =>
        by_cases hl : l = p
        · rw [execSegs, if_pos hl] at h
          simpa using ih ps caps h
        · rw [execSegs, if_neg hl] at h; cases h
      | param n =>
        by_cases hp : p = ""
        · rw [execSegs, if_pos hp] at h; cases h
        · rw [execSegs, if_neg hp] at h
          cases hc : execSegs ss ps with
          | none => rw [hc] at h; cases h
          | some cs =>
            rw [hc] at h
            simp only [Option.map_some', Option.some.injEq] at h
            have := ih ps cs hc
            simp [← h, this]

/-- The index-based dispatcher runs the suffix of the chain from `index`. -/
theorem applyMiddlewares_eq_dispatch (mws : List Middleware) (handler : Handler)
    (event : Event) : ∀ i, applyMiddlewares mws handler event i =
      dispatch handler event (mws.drop i) := by
  have key : ∀ (n i : Nat), mws.length - i = n →
      applyMiddlewares mws handler event i = dispatch handler event (mws.drop i) := by
    intro n
    induction n with
    | zero =>
      intro i h
      rw [applyMiddlewares_unfold, dif_neg (by omega)]
      rw [List.drop_eq_nil_of_le (by omega)]
      rfl
    | succ n ih =>
      intro i h
      have hi : i < mws.length := by omega
      rw [applyMiddlewares_unfold, dif_pos hi]
      have hd : mws.drop i = mws.get ⟨i, hi⟩ :: mws.drop (i + 1) := by
        rw [List.get_eq_getElem]
        exact List.drop_eq_getElem_cons hi
      rw [hd, dispatch]
      have hih : (fun _ : Unit => applyMiddlewares mws handler event (i + 1)) =
          (fun _ : Unit => dispatch handler event (mws.drop (i + 1))) := by
        funext u
        exact ih (i + 1) (by omega)
      rw [hih]
  intro i
  exact key (mws.length - i) i rfl

/-- The route scan answers `none` exactly when no route has both the right
method and a matching pattern. -/
theorem matchRouteGo_eq_none_iff (method path qs : String) (routes : List Route) :
    matchRouteGo method path qs routes = none ↔
      ∀ r ∈ routes,
        ¬(r.method = method ∧ (execSegs r.pathRegex (splitSegs path)).isSome) := by
  induction routes with
  | nil => simp [matchRouteGo]
  | cons r rest ih =>
    rw [matchRouteGo]
    by_cases h : r.method = method
    · cases hx : execSegs r.pathRegex (splitSegs path) with
      | some caps => simp [h, hx]
      | none => simp [h, hx, ih]
    · simp [h, ih]

/-- A segment list containing a bare `:` fails to compile with the
empty-parameter-name error. -/
theorem compileSegs_colon (parts : List String) (h : ":" ∈ parts) :
    compileSegs parts = .error "InvalidPatternError: empty parameter name" := by
  induction parts with
  | nil => cases h
  | cons p rest ih =>
    rcases List.mem_cons.mp h with hp | hp
    · subst hp
      rw [compileSegs]
      norm_num
    · by_cases hc : p.data.head? = some ':'
      · by_cases hn : String.mk p.data.tail = ""
        · rw [compileSegs, if_pos hc, if_pos hn]
        · rw [compileSegs, if_pos hc, if_neg hn, ih hp]
          rfl
      · rw [compileSegs, if_neg hc, ih hp]
        rfl

/-- One successful mutator application preserves the builder invariant. -/
theorem applyOp_inv (b0 b' : Builder) (op : BOp)
    (h1 : 100 ≤ b0.statusCode) (h2 : b0.statusCode ≤ 599) (h3 : b0.statusText ≠ "")
    (h : applyOp b0 op = .ok b') :
    100 ≤ b'.statusCode ∧ b'.statusCode ≤ 599 ∧ b'.statusText ≠ "" := by
  cases op with
  | setStatus c =>
    simp only [applyOp, Builder.status] at h
    split at h
    · cases h
    · next hc =>
      push_neg at hc
      simp only [Except.ok.injEq] at h
      subst h
      refine ⟨?_, ?_, h3⟩
      · show (100 : Int) ≤ c
        omega
      · show c ≤ (599 : Int)
        omega
  | setText t =>
    simp only [applyOp, Builder.setStatusText] at h
    split at h
    · cases h
    · next ht =>
      simp only [Except.ok.injEq] at h
      subst h
      exact ⟨h1, h2, ht⟩
  | setHeader k v =>
    simp only [applyOp, Builder.header] at h
    split at h
    · cases h
    · simp only [Except.ok.injEq] at h
      subst h
      exact ⟨h1, h2, h3⟩

/-- A successful mutator sequence preserves the builder invariant. -/
theorem runOps_inv (ops : List BOp) : ∀ b0 b : Builder,
    100 ≤ b0.statusCode → b0.statusCode ≤ 599 → b0.statusText ≠ "" →
    runOps b0 ops = .ok b →
    100 ≤ b.statusCode ∧ b.statusCode ≤ 599 ∧ b.statusText ≠ "" := by
  induction ops with
  | nil =>
    intro b0 b h1 h2 h3 h
    simp only [runOps, Except.ok.injEq] at h
    subst h
    exact ⟨h1, h2, h3⟩
  | cons op rest ih =>
    intro b0 b h1 h2 h3 h
    rw [runOps] at h
    cases hop : applyOp b0 op with
    | error e => rw [hop] at h; cases h
    | ok b' =>
      rw [hop] at h
      obtain ⟨g1, g2, g3⟩ := applyOp_inv b0 b' op h1 h2 h3 hop
      exact ih b' b g1 g2 g3 h

/-! ## Claim theorems -/

/-- C7: starting from the defaults (200, "OK"), after any sequence of
successful mutations the status code stays in [100,599] and the status text
stays non-empty; `status` fails exactly when the code is below 100 or above
599, `setStatusText` fails exactly when the text is empty, `header` fails
exactly when the key or the value is empty, and on valid input each mutator
records its argument. -/
theorem C7_builder_validation :
    (∀ (b : Builder) (c : Int),
      ((c < 100 ∨ c > 599) → b.status c = .error "Invalid status code") ∧
      (100 ≤ c → c ≤ 599 → b.status c = .ok { b with statusCode := c })) ∧
    (∀ (b : Builder) (t : String),
      (t = "" → b.setStatusText t = .error "Status text cannot be empty") ∧
      (t ≠ "" → b.setStatusText t = .ok { b with statusText := t })) ∧
    (∀ (b : Builder) (k v : String),
      ((k = "" ∨ v = "") → b.header k v = .error "Header key and value cannot be empty") ∧
      (k ≠ "" → v ≠ "" → b.header k v = .ok { b with headers := headersSet b.headers k v })) ∧
    (∀ (ops : List BOp) (b : Builder), runOps Builder.init ops = .ok b →
      100 ≤ b.statusCode ∧ b.statusCode ≤ 599 ∧ b.statusText ≠ "") := by
  refine ⟨?_, ?_, ?_, ?_⟩
  · intro b c
    constructor
    · intro h
      simp [Builder.status, h]
    · intro h1 h2
      rw [Builder.status, if_neg (by omega)]
  · intro b t
    constructor
    · intro h
      simp [Builder.setStatusText, h]
    · intro h
      rw [Builder.setStatusText, if_neg h]
  · intro b k v
    constructor
    · intro h
      simp only [Builder.header, if_pos h]
    · intro hk hv
      rw [Builder.header, if_neg (by simp [hk, hv])]
  · intro ops b h
    exact runOps_inv ops Builder.init b (by simp [Builder.init]) (by simp [Builder.init])
      (by simp [Builder.init]) h

/-- Witness for C7 at concrete inputs: status 600 is rejected, status 201
recorded, the empty status text rejected, a header recorded, and the
invariant holds for the builder reached by `[setStatus 201]`. -/
theorem C7_builder_validation_witness :
    Builder.init.status 600 = .error "Invalid status code" ∧
    Builder.init.status 201 = .ok { Builder.init with statusCode := 201 } ∧
    Builder.init.setStatusText "" = .error "Status text cannot be empty" ∧
    Builder.init.header "X-A" "1" =
      .ok { Builder.init with headers := headersSet Builder.init.headers "X-A" "1" } ∧
    (100 ≤ (201 : Int) ∧ (201 : Int) ≤ 599 ∧ "OK" ≠ "") :=
  ⟨(C7_builder_validation.1 Builder.init 600).1 (by omega),
   (C7_builder_validation.1 Builder.init 201).2 (by omega) (by omega),
   (C7_builder_validation.2.1 Builder.init "").1 rfl,
   (C7_builder_validation.2.2.1 Builder.init "X-A" "1").2 (by decide) (by decide),
   by
     have := C7_builder_validation.2.2.2 [BOp.setStatus 201]
       { Builder.init with statusCode := 201 } (by rfl)
     exact this⟩

/-- C10: `config` validates and inserts keys one at a time in enumeration
order; on the first non-uppercase key it stops with an error naming that
key, the keys before it remain applied, and no key at or after the
offending one is applied; when all keys are uppercase the whole map is
merged with no error. -/
theorem C10_config_partial_merge :
    (∀ (cfgs : LMap) (pairs : List (String × String)),
      (∀ p ∈ pairs, jsToUpper p.1 = p.1) →
      configMerge cfgs pairs =
        (pairs.foldl (fun acc p => listSet acc p.1 p.2) cfgs, none)) ∧
    (∀ (cfgs : LMap) (pre : List (String × String)) (k v : String)
        (post : List (String × String)),
      (∀ p ∈ pre, jsToUpper p.1 = p.1) →
      jsToUpper k ≠ k →
      configMerge cfgs (pre ++ (k, v) :: post) =
        (pre.foldl (fun acc p => listSet acc p.1 p.2) cfgs,
         some ("Config key \"" ++ k ++ "\" must be uppercase."))) := by
  constructor
  · intro cfgs pairs
    induction pairs generalizing cfgs with
    | nil => intro _; rfl
    | cons p rest ih =>
      intro h
      obtain ⟨k, v⟩ := p
      have hk := h (k, v) (List.mem_cons_self _ _)
      simp only at hk
      rw [configMerge, if_neg (by simp [hk])]
      exact ih (listSet cfgs k v) (fun q hq => h q (List.mem_cons_of_mem _ hq))
  · intro cfgs pre k v post hpre hk
    induction pre generalizing cfgs with
    | nil =>
      simp only [List.nil_append, List.foldl_nil]
      rw [configMerge, if_pos hk]
    | cons p rest ih =>
      obtain ⟨k0, v0⟩ := p
      have hk0 := hpre (k0, v0) (List.mem_cons_self _ _)
      simp only at hk0
      simp only [List.cons_append, List.foldl_cons]
      rw [configMerge, if_neg (by simp [hk0])]
      exact ih (listSet cfgs k0 v0) (fun q hq => hpre q (List.mem_cons_of_mem _ hq))

/-- Witness for C10: merging `GOOD=1, bad=2, ALSO=3` into the empty config
store applies `GOOD`, stops at `bad` naming it, and drops `ALSO`. -/
theorem C10_config_partial_merge_witness :
    configMerge [] [("GOOD", "1"), ("bad", "2"), ("ALSO", "3")] =
      ([("GOOD", "1")], some "Config key \"bad\" must be uppercase.") := by
  have := C10_config_partial_merge.2 [] [("GOOD", "1")] "bad" "2" [("ALSO", "3")]
    (by intro p hp; simp at hp; subst hp; rfl) (by decide)
  simpa [listSet] using this

/-- C5 counterexample: `parseQuery` does not split a pair on the first `=`
only — `parseQuery("a=b=c")` maps `a` to `"b"`, not `"b=c"` — and a pair
with no `=` gets the JS value `undefined` (`none`), not the empty string. -/
theorem C5_parseQuery_counterexample :
    parseQuery "a=b=c" = [("a", some "b")] ∧
    parseQuery "a=b=c" ≠ [("a", some "b=c")] ∧
    parseQuery "flag" = [("flag", none)] ∧
    parseQuery "flag" ≠ [("flag", some "")] := by
  refine ⟨by decide, ?_, by decide, ?_⟩ <;> decide

/-- C5 (amended): `parseQuery` splits on `&`, splits each pair on every `=`
and keeps the first two percent-decoded pieces as key and value (so
`"a=b=c"` yields value `"b"`), a pair with no `=` mapping its key to the
undefined value; the empty string yields the empty mapping, and
`parseQuery("name=hello%20world&key=123")` is
`\x7bname: "hello world", key: "123"\x7d`. -/
theorem C5_parseQuery_amended :
    (∀ s : String, parseQuery s =
      if s = "" then []
      else objFromEntries ((jsSplit s '&').map fun pair =>
        let parts := (jsSplit pair '=').map decodeURIComponentM
        (parts.headD "", parts.get? 1))) ∧
    parseQuery "name=hello%20world&key=123" =
      [("name", some "hello world"), ("key", some "123")] ∧
    parseQuery "" = [] ∧
    parseQuery "a=b=c" = [("a", some "b")] ∧
    parseQuery "flag" = [("flag", none)] := by
  refine ⟨fun s => rfl, by decide, rfl, by decide, by decide⟩

/-- C6 counterexample: finalizers are not idempotent observers and do not
preserve the status text — `json` mutates the builder's headers, so a later
plain `send` on the same builder carries `Content-Type: application/json`
(on a fresh builder `send` carries no content type); and a builder whose
status text was set to `Created` produces a response whose status text is
empty, because the finalizers never pass the status text to the response. -/
theorem C6_finalizers_counterexample :
    headersGet (Builder.send (Builder.init.json (Json.jobj [("a", Json.jnum 1)])).2
      "x").headers "Content-Type" = some "application/json" ∧
    headersGet (Builder.send Builder.init "x").headers "Content-Type" = none ∧
    Builder.init.setStatusText "Created" = .ok ⟨200, "Created", []⟩ ∧
    (Builder.send ⟨200, "Created", []⟩ "x").statusText = "" ∧
    "Created" ≠ "" := by
  refine ⟨by decide, by decide, by rfl, by decide, by decide⟩

/-- C6 (amended): `json`, `html` and `text` produce a response whose
Content-Type is `application/json`, `text/html` and `text/plain` by setting
it on the builder's own headers (a mutation that persists on the builder
and is visible to later finalizer calls), while `send` sets no content type;
every finalizer carries the builder's current status code and headers into
the response, but not its status text (the response's status text is
empty); headers other than Content-Type are preserved; and each call
returns an independent immutable snapshot of the state at call time. -/
theorem C6_finalizers_amended :
    (∀ (b : Builder) (v : Json),
      b.json v =
        (⟨b.statusCode, "", headersSet b.headers "Content-Type" "application/json",
          Json.stringify v⟩,
         { b with headers := headersSet b.headers "Content-Type" "application/json" })) ∧
    (∀ (b : Builder) (s : String),
      b.html s =
        (⟨b.statusCode, "", headersSet b.headers "Content-Type" "text/html", s⟩,
         { b with headers := headersSet b.headers "Content-Type" "text/html" })) ∧
    (∀ (b : Builder) (s : String),
      b.text s =
        (⟨b.statusCode, "", headersSet b.headers "Content-Type" "text/plain", s⟩,
         { b with headers := headersSet b.headers "Content-Type" "text/plain" })) ∧
    (∀ (b : Builder) (s : String), b.send s = ⟨b.statusCode, "", b.headers, s⟩) ∧
    (∀ (b : Builder) (v : Json),
      headersGet (b.json v).1.headers "Content-Type" = some "application/json") ∧
    (∀ (b : Builder) (s : String),
      headersGet (b.html s).1.headers "Content-Type" = some "text/html") ∧
    (∀ (b : Builder) (s : String),
      headersGet (b.text s).1.headers "Content-Type" = some "text/plain") ∧
    (∀ (b : Builder) (v : Json) (k : String), jsToLower k ≠ "content-type" →
      headersGet (b.json v).1.headers k = headersGet b.headers k) := by
  have hct : jsToLower "Content-Type" = "content-type" := by decide
  refine ⟨fun b v => rfl, fun b s => rfl, fun b s => rfl, fun b s => rfl, ?_, ?_, ?_, ?_⟩
  · intro b v
    show listGet (listSet b.headers (jsToLower "Content-Type") "application/json")
      (jsToLower "Content-Type") = some "application/json"
    exact listGet_listSet_self _ _ _
  · intro b s
    show listGet (listSet b.headers (jsToLower "Content-Type") "text/html")
      (jsToLower "Content-Type") = some "text/html"
    exact listGet_listSet_self _ _ _
  · intro b s
    show listGet (listSet b.headers (jsToLower "Content-Type") "text/plain")
      (jsToLower "Content-Type") = some "text/plain"
    exact listGet_listSet_self _ _ _
  · intro b v k hk
    show listGet (listSet b.headers (jsToLower "Content-Type") "application/json")
      (jsToLower k) = listGet b.headers (jsToLower k)
    rw [hct]
    exact listGet_listSet_ne _ _ _ _ hk

/-- Witness for C6 (amended) at a concrete input: `json` leaves the header
`X-Other` of the builder untouched. -/
theorem C6_finalizers_amended_witness :
    headersGet (Builder.json ⟨200, "OK", [("x-other", "1")]⟩ Json.jnull).1.headers "X-Other" =
      headersGet (⟨200, "OK", [("x-other", "1")]⟩ : Builder).headers "X-Other" :=
  C6_finalizers_amended.2.2.2.2.2.2.2 ⟨200, "OK", [("x-other", "1")]⟩ Json.jnull "X-Other"
    (by decide)

/-- C4: (spec-modelled matcher, the `path-to-regexp` code not being in the
repository) a successful match forces equal segment counts and every
segment pair accepted — a literal pattern segment equal (case-sensitively)
to the path segment — and the result pairs the declared parameter names, in
order, with the URL-decoded captures, one per name, empty when the pattern
has no parameters; concretely `/test/` never matches pattern `/test`, and
pattern `/test/:id` matches neither `/test` nor `/test/123/extra`. -/
theorem C4_pattern_match :
    (∀ (segs : List Seg) (path : String) (m : List (String × String)),
      matchPattern segs path = some m →
        segs.length = (splitSegs path).length ∧
        (segs.zip (splitSegs path)).all segOk = true ∧
        m = (segKeys segs).zip (capsOf (segs.zip (splitSegs path))) ∧
        m.map Prod.fst = segKeys segs ∧
        (segKeys segs = [] → m = [])) ∧
    (∀ (segs : List Seg) (psegs caps : List String),
      execSegs segs psegs = some caps ↔
        segs.length = psegs.length ∧ (segs.zip psegs).all segOk = true ∧
          caps = capsOf (segs.zip psegs)) ∧
    compilePattern "/test" = .ok [Seg.lit "test"] ∧
    matchPattern [Seg.lit "test"] "/test" = some [] ∧
    matchPattern [Seg.lit "test"] "/test/" = none ∧
    matchPattern [Seg.lit "test"] "/Test" = none ∧
    compilePattern "/test/:id" = .ok [Seg.lit "test", Seg.param "id"] ∧
    matchPattern [Seg.lit "test", Seg.param "id"] "/test" = none ∧
    matchPattern [Seg.lit "test", Seg.param "id"] "/test/123/extra" = none ∧
    matchPattern [Seg.lit "test", Seg.param "id"] "/test/a%20b" = some [("id", "a b")] := by
  refine ⟨?_, execSegs_eq_some_iff, by rfl, by decide, by decide, by decide, by rfl,
    by decide, by decide, by decide⟩
  intro segs path m h
  rw [matchPattern] at h
  cases hc : execSegs segs (splitSegs path) with
  | none => rw [hc] at h; cases h
  | some caps =>
    rw [hc] at h
    simp only [Option.map_some', Option.some.injEq] at h
    obtain ⟨h1, h2, h3⟩ := (execSegs_eq_some_iff segs (splitSegs path) caps).mp hc
    have hlen : caps.length = (segKeys segs).length := execSegs_length segs _ caps hc
    refine ⟨h1, h2, by rw [← h, h3], ?_, ?_⟩
    · rw [← h]
      exact List.map_fst_zip _ _ (by omega)
    · intro hk
      rw [← h, hk]
      rfl

/-- Witness for C4 at a concrete input: pattern `/test/:id` matched against
`/test/123` has equal segment counts, all pairs accepted, and the result is
exactly the capture `id = "123"`. -/
theorem C4_pattern_match_witness :
    ([Seg.lit "test", Seg.param "id"] : List Seg).length =
      (splitSegs "/test/123").length ∧
    (([Seg.lit "test", Seg.param "id"] : List Seg).zip (splitSegs "/test/123")).all segOk
      = true ∧
    [("id", "123")] =
      (segKeys [Seg.lit "test", Seg.param "id"]).zip
        (capsOf (([Seg.lit "test", Seg.param "id"] : List Seg).zip (splitSegs "/test/123"))) ∧
    ([("id", "123")] : List (String × String)).map Prod.fst =
      segKeys [Seg.lit "test", Seg.param "id"] ∧
    (segKeys [Seg.lit "test", Seg.param "id"] = [] →
      ([("id", "123")] : List (String × String)) = []) :=
  C4_pattern_match.1 [Seg.lit "test", Seg.param "id"] "/test/123" [("id", "123")] (by decide)

/-- C9: (spec-modelled compiler, the `path-to-regexp` code not being in the
repository) compiling an empty pattern or a pattern containing a parameter
with an empty name (a bare `:` segment) fails with `InvalidPatternError`,
and `addRoute` propagates exactly that error to its caller. -/
theorem C9_invalid_pattern :
    (∀ p : String, (p = "" ∨ ":" ∈ splitSegs p) →
      ∃ e, compilePattern p = .error e ∧
        ∀ (routes : List Route) (method : String) (cb : Handler) (mws : List Middleware),
          addRoute routes method p cb mws = .error e) ∧
    compilePattern "" = .error "InvalidPatternError: empty pattern" ∧
    compilePattern "/:" = .error "InvalidPatternError: empty parameter name" := by
  refine ⟨?_, by rfl, by rfl⟩
  intro p h
  by_cases hp : p = ""
  · refine ⟨"InvalidPatternError: empty pattern", ?_, ?_⟩
    · rw [compilePattern, if_pos hp]
    · intro routes method cb mws
      rw [addRoute, compilePattern, if_pos hp]
      rfl
  · have hc : ":" ∈ splitSegs p := h.resolve_left hp
    refine ⟨"InvalidPatternError: empty parameter name", ?_, ?_⟩
    · rw [compilePattern, if_neg hp]
      exact compileSegs_colon _ hc
    · intro routes method cb mws
      rw [addRoute, compilePattern, if_neg hp, compileSegs_colon _ hc]
      rfl

/-- Witness for C9 at a concrete input: registering the pattern `/:` fails
with the empty-parameter-name error. -/
theorem C9_invalid_pattern_witness :
    ∃ e, compilePattern "/:" = .error e ∧
      ∀ (routes : List Route) (method : String) (cb : Handler) (mws : List Middleware),
        addRoute routes method "/:" cb mws = .error e :=
  C9_invalid_pattern.1 "/:" (Or.inr (by decide))

/-- C1: route lookup parses the URL into path and query, scans the routes
in registration order considering only those whose method equals the
request method, and returns the first whose pattern matches the path
together with its captured params and parsed query (`List.findSome?` is
exactly this first-match scan); it returns `none` exactly when no
registered route matches; and registering `/home/:id` before
`/home/profile` makes a GET for `/home/profile` match the parameterized
route with `id = "profile"`. -/
theorem C1_route_lookup :
    (∀ (method url : String) (routes : List Route),
      matchRoute method url routes =
        routes.findSome? (fun r =>
          if r.method = method then
            (execSegs r.pathRegex (splitSegs (pathAndQuery url).1)).map (fun caps =>
              (⟨(segKeys r.pathRegex).zip caps, r.callback,
                if (pathAndQuery url).2 ≠ "" then urlSearchParamsParse (pathAndQuery url).2
                else [],
                r.middlewares⟩ : RouteMatch))
          else none)) ∧
    (∀ (method url : String) (routes : List Route),
      matchRoute method url routes = none ↔
        ∀ r ∈ routes, ¬(r.method = method ∧
          (execSegs r.pathRegex (splitSegs (pathAndQuery url).1)).isSome)) ∧
    (do
      let rs1 ← addRoute [] "GET" "/home/:id" (hTag "h1") []
      let rs2 ← addRoute rs1 "GET" "/home/profile" (hTag "h2") []
      pure ((matchRoute "GET" "http://example.com/home/profile" rs2).map
        (fun m => m.params))) = Except.ok (some [("id", "profile")]) := by
  refine ⟨?_, ?_, by rfl⟩
  · intro method url routes
    exact matchRouteGo_eq_findSome method (pathAndQuery url).1 (pathAndQuery url).2 routes
  · intro method url routes
    exact matchRouteGo_eq_none_iff method (pathAndQuery url).1 (pathAndQuery url).2 routes

/-- C2: dispatch runs the concatenation of the global middleware list and
the matched route's middleware list from index 0; the middleware at index
`i` receives the event and a continuation dispatching `i + 1`, and past the
chain length the continuation invokes the route handler; for the chain
`[A, B]` around handler `H` the call order is A-before, B-before, H,
B-after, A-after; and when B short-circuits without calling `next`, `H`
(and every middleware after B) never runs while A-before has already run. -/
theorem C2_middleware_pipeline :
    (∀ (mws : List Middleware) (handler : Handler) (event : Event) (index : Nat),
      applyMiddlewares mws handler event index =
        if h : index < mws.length then
          (mws.get ⟨index, h⟩) event
            (fun _ => applyMiddlewares mws handler event (index + 1))
        else handler event) ∧
    (∀ (app : App) (req : Request) (rm : RouteMatch),
      matchRoute req.method req.url app.routes = some rm →
      fetch app req =
        (let event : Event := ⟨req.url, req.method, rm.params, rm.query⟩
         let out := applyMiddlewares (app.globalMiddlewares ++ rm.middlewares) rm.handler
           event 0 ⟨[], app.locals, Builder.init⟩
         match out.2 with
         | .ok r => (r, out.1)
         | .error _ =>
           let b := { out.1.builder with statusCode := 500 }
           (Builder.send b "Internal Server Error", { out.1 with builder := b }))) ∧
    (fetch appChain ⟨"GET", "http://h/t"⟩).2.trace =
      ["A-before", "B-before", "H", "B-after", "A-after"] ∧
    (fetch appShort ⟨"GET", "http://h/t"⟩).2.trace = ["A-before", "B-sc"] ++ ["A-after"] ∧
    "H" ∉ (fetch appShort ⟨"GET", "http://h/t"⟩).2.trace ∧
    "A-before" ∈ (fetch appShort ⟨"GET", "http://h/t"⟩).2.trace := by
  refine ⟨applyMiddlewares_unfold, fetch_matched, ?_, ?_, ?_, ?_⟩
  · rw [fetch_matched appChain ⟨"GET", "http://h/t"⟩ ⟨[], hTag "H", [], [logMw "B"]⟩ rfl]
    simp only [applyMiddlewares_eq_dispatch]
    decide
  · rw [fetch_matched appShort ⟨"GET", "http://h/t"⟩ ⟨[], hTag "H", [], [scMw "B-sc"]⟩ rfl]
    simp only [applyMiddlewares_eq_dispatch]
    decide
  · rw [fetch_matched appShort ⟨"GET", "http://h/t"⟩ ⟨[], hTag "H", [], [scMw "B-sc"]⟩ rfl]
    simp only [applyMiddlewares_eq_dispatch]
    decide
  · rw [fetch_matched appShort ⟨"GET", "http://h/t"⟩ ⟨[], hTag "H", [], [scMw "B-sc"]⟩ rfl]
    simp only [applyMiddlewares_eq_dispatch]
    decide

/-- Witness for C2 at a concrete matched request: the matched-branch
equation instantiated at `appChain` and `GET http://h/t`. -/
theorem C2_middleware_pipeline_witness :
    fetch appChain ⟨"GET", "http://h/t"⟩ =
      (let event : Event := ⟨"http://h/t", "GET", [], []⟩
       let out := applyMiddlewares (appChain.globalMiddlewares ++ [logMw "B"]) (hTag "H")
         event 0 ⟨[], appChain.locals, Builder.init⟩
       match out.2 with
       | .ok r => (r, out.1)
       | .error _ =>
         let b := { out.1.builder with statusCode := 500 }
         (Builder.send b "Internal Server Error", { out.1 with builder := b })) :=
  C2_middleware_pipeline.2.1 appChain ⟨"GET", "http://h/t"⟩ ⟨[], hTag "H", [], [logMw "B"]⟩
    rfl

/-- C3 counterexample: partial response state does leak — a middleware that
sets the header `X-Leak: 1` on the event's Response Builder and then throws
produces a 500 response that still carries `X-Leak: 1`, because `fetch`
answers `event.response.status(500).send(...)` on the same mutated
builder. -/
theorem C3_error_boundary_counterexample :
    (fetch appLeak ⟨"GET", "http://h/x"⟩).1.status = 500 ∧
    (fetch appLeak ⟨"GET", "http://h/x"⟩).1.body = "Internal Server Error" ∧
    headersGet (fetch appLeak ⟨"GET", "http://h/x"⟩).1.headers "X-Leak" = some "1" := by
  refine ⟨?_, ?_, ?_⟩ <;>
    (rw [fetch_matched appLeak ⟨"GET", "http://h/x"⟩ ⟨[], hTag "H", [], []⟩ rfl]
     simp only [applyMiddlewares_eq_dispatch]
     decide)

/-- C3 (amended): on no match, `fetch` answers a 404 built from a fresh
Response Builder with no handler or middleware invoked (the trace stays
empty); on any middleware/handler error it recovers at the single `fetch`
boundary and answers status 500 with the generic body `Internal Server
Error` — the original error value never reaches the response — but the
response carries the headers of the event's Response Builder as mutated by
the middleware that ran before the failure (partial header state is not
discarded). -/
theorem C3_error_boundary_amended :
    (∀ (app : App) (req : Request),
      matchRoute req.method req.url app.routes = none →
      fetch app req =
        (Builder.send { Builder.init with statusCode := 404 } "Not Found",
         ⟨[], app.locals, { Builder.init with statusCode := 404 }⟩)) ∧
    (∀ (app : App) (req : Request) (rm : RouteMatch) (s1 : ReqState) (e : String),
      matchRoute req.method req.url app.routes = some rm →
      applyMiddlewares (app.globalMiddlewares ++ rm.middlewares) rm.handler
        ⟨req.url, req.method, rm.params, rm.query⟩ 0 ⟨[], app.locals, Builder.init⟩ =
        (s1, .error e) →
      fetch app req =
        (⟨500, "", s1.builder.headers, "Internal Server Error"⟩,
         { s1 with builder := { s1.builder with statusCode := 500 } })) := by
  refine ⟨fetch_none, ?_⟩
  intro app req rm s1 e h1 h2
  rw [fetch_matched app req rm h1]
  simp only [h2]
  rfl

/-- Witness for C3 (amended) at concrete inputs: a POST to `/x` matches no
route and yields the 404 with an empty trace; the leaking middleware
scenario yields the 500 carrying the mutated header. -/
theorem C3_error_boundary_amended_witness :
    fetch appLeak ⟨"POST", "http://h/x"⟩ =
      (⟨404, "", [], "Not Found"⟩,
       ⟨[], [], { Builder.init with statusCode := 404 }⟩) ∧
    fetch appLeak ⟨"GET", "http://h/x"⟩ =
      (⟨500, "", [("x-leak", "1")], "Internal Server Error"⟩,
       ⟨[], [], ⟨500, "OK", [("x-leak", "1")]⟩⟩) :=
  ⟨C3_error_boundary_amended.1 appLeak ⟨"POST", "http://h/x"⟩ rfl,
   C3_error_boundary_amended.2 appLeak ⟨"GET", "http://h/x"⟩ ⟨[], hTag "H", [], []⟩
     ⟨[], [], ⟨200, "OK", [("x-leak", "1")]⟩⟩ "boom" rfl
     (by simp only [applyMiddlewares_eq_dispatch]; rfl)⟩

/-- C8 counterexample: the locals store is not per-request — it is the
application context's single map. A handler that writes `k := v` during one
request leaves the write in the context, and a later request's handler
reading `k` through its event observes `"v"`; the second request does not
start from an empty store. -/
theorem C8_locals_counterexample :
    (fetchTwice appLocals ⟨"GET", "http://h/w"⟩ ⟨"GET", "http://h/r"⟩).2.body = "v" ∧
    (fetchTwice appLocals ⟨"GET", "http://h/w"⟩ ⟨"GET", "http://h/r"⟩).2.body ≠ "missing" ∧
    (fetch appLocals ⟨"GET", "http://h/w"⟩).2.locals = [("k", "v")] := by
  have hl : (fetch appLocals ⟨"GET", "http://h/w"⟩).2.locals = [("k", "v")] := by
    rw [fetch_matched appLocals ⟨"GET", "http://h/w"⟩ ⟨[], hWrite, [], []⟩ rfl]
    simp only [applyMiddlewares_eq_dispatch]
    decide
  have hb : (fetchTwice appLocals ⟨"GET", "http://h/w"⟩ ⟨"GET", "http://h/r"⟩).2.body
      = "v" := by
    simp only [fetchTwice]
    rw [hl]
    rw [fetch_matched { appLocals with locals := [("k", "v")] } ⟨"GET", "http://h/r"⟩
      ⟨[], hRead, [], []⟩ rfl]
    simp only [applyMiddlewares_eq_dispatch]
    decide
  refine ⟨hb, by rw [hb]; decide, hl⟩

/-- C8 (amended): the locals store is created once per application context
and shared by reference with every request's event: a request's pipeline
starts from the context's locals as previous requests left them (not from
an empty map), the request's final locals are whatever the pipeline wrote
into that shared store, an unmatched request leaves them untouched, and a
write made while handling one request is observed while handling a later
request of the same application. -/
theorem C8_locals_shared_amended :
    (∀ (app : App) (req : Request) (rm : RouteMatch),
      matchRoute req.method req.url app.routes = some rm →
      (fetch app req).2.locals =
        (applyMiddlewares (app.globalMiddlewares ++ rm.middlewares) rm.handler
          ⟨req.url, req.method, rm.params, rm.query⟩ 0
          ⟨[], app.locals, Builder.init⟩).1.locals) ∧
    (∀ (app : App) (req : Request),
      matchRoute req.method req.url app.routes = none →
      (fetch app req).2.locals = app.locals) ∧
    (fetchTwice appLocals ⟨"GET", "http://h/w"⟩ ⟨"GET", "http://h/r"⟩).2.body = "v" ∧
    (fetch appLocals ⟨"GET", "http://h/w"⟩).2.locals ≠ [] := by
  have hl : (fetch appLocals ⟨"GET", "http://h/w"⟩).2.locals = [("k", "v")] := by
    rw [fetch_matched appLocals ⟨"GET", "http://h/w"⟩ ⟨[], hWrite, [], []⟩ rfl]
    simp only [applyMiddlewares_eq_dispatch]
    decide
  refine ⟨?_, ?_, ?_, by rw [hl]; decide⟩
  · intro app req rm h1
    rw [fetch_matched app req rm h1]
    cases hx : (applyMiddlewares (app.globalMiddlewares ++ rm.middlewares) rm.handler
        ⟨req.url, req.method, rm.params, rm.query⟩ 0 ⟨[], app.locals, Builder.init⟩).2 with
    | ok r => simp only [hx]
    | error e => simp only [hx]
  · intro app req h1
    rw [fetch_none app req h1]
  · simp only [fetchTwice]
    rw [hl]
    rw [fetch_matched { appLocals with locals := [("k", "v")] } ⟨"GET", "http://h/r"⟩
      ⟨[], hRead, [], []⟩ rfl]
    simp only [applyMiddlewares_eq_dispatch]
    decide

/-- Witness for C8 (amended) at concrete inputs: the matched-request locals
equation at `appLocals` and `GET http://h/w`, and the unmatched case at a
POST request. -/
theorem C8_locals_shared_amended_witness :
    (fetch appLocals ⟨"GET", "http://h/w"⟩).2.locals =
      (applyMiddlewares (appLocals.globalMiddlewares ++ []) hWrite
        ⟨"http://h/w", "GET", [], []⟩ 0 ⟨[], appLocals.locals, Builder.init⟩).1.locals ∧
    (fetch appLocals ⟨"POST", "http://h/w"⟩).2.locals = appLocals.locals :=
  ⟨C8_locals_shared_amended.1 appLocals ⟨"GET", "http://h/w"⟩ ⟨[], hWrite, [], []⟩ rfl,
   C8_locals_shared_amended.2.1 appLocals ⟨"POST", "http://h/w"⟩ rfl⟩

end Lizard
